import Mathlib

/-!
# Verification of the NLLB translation server's request-to-batches pipeline

Shallow embedding of `backend/proxy/nllb_server.py`: the formula-preserving
normalizer (`strip_markdown`), the unit segmenter (`split_into_units`), the
batch planner (batch size and adaptive decode length), the batch executor
(`process_batch`), and the aggregate / streaming assembly of `translate` and
`translate_stream`.

Python strings are modelled as `String` / `List Char` (Python `len` counts
code points, as does `String.length`).  The regular-expression substitutions
of `strip_markdown` are realized as executable left-to-right scanners with
the exact matching semantics of each concrete pattern (laziness, greediness,
lookarounds), verified against CPython's `re` on the inputs used below.  The
translation engine (tokenizer + model.generate + batch_decode) is an opaque
collaborator, modelled as a pair of functions that may raise (return `none`).
-/

namespace NllbServer

/-- Python whitespace (`str.isspace`, `str.strip`, and `\s` in `re` for
`str` patterns all use `Py_UNICODE_ISSPACE`): ASCII whitespace, the
separator control characters 0x1c-0x1f, NEL, NBSP, and the Unicode space
characters. -/
def pyIsSpace (c : Char) : Bool :=
  c = ' ' || c = '\t' || c = '\n' || c = '\r' ||
  c = Char.ofNat 0x0b || c = Char.ofNat 0x0c ||
  c = Char.ofNat 0x1c || c = Char.ofNat 0x1d || c = Char.ofNat 0x1e ||
  c = Char.ofNat 0x1f || c = Char.ofNat 0x85 || c = Char.ofNat 0xa0 ||
  c = Char.ofNat 0x1680 ||
  (0x2000 ≤ c.toNat && c.toNat ≤ 0x200a) ||
  c = Char.ofNat 0x2028 || c = Char.ofNat 0x2029 ||
  c = Char.ofNat 0x202f || c = Char.ofNat 0x205f || c = Char.ofNat 0x3000

/-- Line boundaries recognized by Python `str.splitlines` (besides the
two-character boundary `\r\n`, which the scanner handles separately). -/
def pyIsLineBoundary (c : Char) : Bool :=
  c = '\n' || c = '\r' ||
  c = Char.ofNat 0x0b || c = Char.ofNat 0x0c ||
  c = Char.ofNat 0x1c || c = Char.ofNat 0x1d || c = Char.ofNat 0x1e ||
  c = Char.ofNat 0x85 || c = Char.ofNat 0x2028 || c = Char.ofNat 0x2029

/-- Python `str.strip()` on a character list: drop whitespace from both
ends. -/
def pyStripList (cs : List Char) : List Char :=
  ((cs.dropWhile pyIsSpace).reverse.dropWhile pyIsSpace).reverse

/-- Python `str.strip()`. -/
def pyStrip (s : String) : String :=
  String.mk (pyStripList s.data)

/-- Python `str.splitlines()` scanner: `acc` holds the current line
reversed. A terminator ends the current line; a final segment without a
terminator is kept only if it is non-empty
(matching `"a\n".splitlines() == ["a"]` and `"".splitlines() == []`). -/
def pySplitlinesAux : List Char → List Char → List (List Char)
  | acc, [] => if acc = [] then [] else [acc.reverse]
  | acc, '\r' :: '\n' :: rest => acc.reverse :: pySplitlinesAux [] rest
  | acc, c :: rest =>
    if pyIsLineBoundary c then acc.reverse :: pySplitlinesAux [] rest
    else pySplitlinesAux (c :: acc) rest

/-- Python `str.splitlines()`. -/
def pySplitlines (cs : List Char) : List (List Char) :=
  pySplitlinesAux [] cs

/-- `re.split(r'(?<=[.!?])\s+', text)`: split at maximal whitespace runs
whose first character is preceded by `.`, `!` or `?`.  `prev` is the
character of the original text immediately before the current position;
`acc` is the current piece reversed.  Fuel is the remaining input length
(each step consumes at least one character). -/
def sentenceSplitAux : Nat → Option Char → List Char → List Char → List (List Char)
  | 0, _, acc, rest => [(acc.reverse ++ rest)]
  | _ + 1, _, acc, [] => [acc.reverse]
  | fuel + 1, prev, acc, c :: rest =>
    if pyIsSpace c ∧ (prev = some '.' ∨ prev = some '!' ∨ prev = some '?') then
      acc.reverse :: sentenceSplitAux fuel (some c) [] (rest.dropWhile pyIsSpace)
    else
      sentenceSplitAux fuel (some c) (c :: acc) rest

/-- `re.split(r'(?<=[.!?])\s+', text)` (the split used by the sentence
fallback of `split_into_units`). -/
def sentenceSplit (cs : List Char) : List (List Char) :=
  sentenceSplitAux (cs.length + 1) none [] cs

/-- The line-based path of `split_into_units` (lines 358-362 of
`nllb_server.py`): if the text contains `\n`, split into lines, strip each
line, and keep the non-empty ones; otherwise this path yields nothing. -/
def lineUnits (text : String) : List (List Char) :=
  if text.data.contains '\n' then
    ((pySplitlines text.data).map pyStripList).filter (· ≠ [])
  else []

/-- The sentence-based fallback path of `split_into_units` (lines 365-370):
split on sentence-terminal punctuation followed by whitespace, strip, and
keep the non-empty pieces. -/
def sentenceUnits (text : String) : List (List Char) :=
  ((sentenceSplit text.data).map pyStripList).filter (· ≠ [])

/-- `split_into_units` (lines 350-372 of `nllb_server.py`): prefer one
line = one unit; fall back to sentence splitting; if both paths yield
nothing return the whole (unmodified) input as the single unit. -/
def split_into_units (text : String) : List String :=
  if lineUnits text ≠ [] then (lineUnits text).map String.mk
  else if sentenceUnits text ≠ [] then (sentenceUnits text).map String.mk
  else [text]

/-! ## The formula-preserving normalizer (`strip_markdown`, lines 82-177)

Each `re.sub` of the source is realized as a dedicated left-to-right
scanner with the matching semantics of its concrete pattern (the scanner
tries a match at each position and otherwise advances one character, as
`re.sub` does; none of the patterns can match the empty string).  The four
math-extraction substitutions thread the shared placeholder counter and
the placeholder-to-formula association list (`math_placeholders`; a Python
dict preserves insertion order).  Fuel is the input length plus one: every
step consumes at least one input character. -/

/-- Placeholder for the `n`-th extracted formula when stored as display
math (`replace_display_math` / `replace_latex_display_math`). -/
def displayPlaceholder (n : Nat) : String :=
  "__LATEX_DISPLAY_" ++ Nat.repr n ++ "__"

/-- Placeholder for the `n`-th extracted formula when stored as inline
math (`replace_inline_math` / `replace_latex_inline_math`). -/
def inlinePlaceholder (n : Nat) : String :=
  "__LATEX_INLINE_" ++ Nat.repr n ++ "__"

/-- Split `cs` at the earliest occurrence of `pat`: `some (before, after)`
with `cs = before ++ pat ++ after`, or `none` when `pat` does not occur
(`pat` is non-empty at every call site). -/
def splitAtSub (pat : List Char) : List Char → Option (List Char × List Char)
  | [] => none
  | c :: rest =>
    if pat.isPrefixOf (c :: rest) then some ([], (c :: rest).drop pat.length)
    else
      match splitAtSub pat rest with
      | some (pre, post) => some (c :: pre, post)
      | none => none

/-- `re.sub(r'\$\$[\s\S]*?\$\$', replace_display_math, text)` (line 120):
at each `$$`, the lazy body runs to the earliest following `$$`; the whole
match (`match.group(0)`) is stored and replaced by a display placeholder. -/
def subDisplayMath : Nat → List Char → Nat → List (String × String) →
    List Char × Nat × List (String × String)
  | 0, cs, ctr, acc => (cs, ctr, acc)
  | _ + 1, [], ctr, acc => ([], ctr, acc)
  | fuel + 1, c :: rest, ctr, acc =>
    if c = '$' ∧ rest.head? = some '$' then
      match splitAtSub ['$', '$'] (rest.drop 1) with
      | some (body, rem) =>
        let ph := displayPlaceholder ctr
        let matched := String.mk ('$' :: '$' :: (body ++ ['$', '$']))
        let r := subDisplayMath fuel rem (ctr + 1) (acc ++ [(ph, matched)])
        (ph.data ++ r.1, r.2)
      | none =>
        let r := subDisplayMath fuel rest ctr acc
        (c :: r.1, r.2)
    else
      let r := subDisplayMath fuel rest ctr acc
      (c :: r.1, r.2)

/-- `re.sub(r'\\\[([\s\S]*?)\\\]', replace_latex_display_math, text)`
(line 132): at each `\[`, the lazy body runs to the earliest following
`\]`; the body is stored wrapped in `$$...$$`. -/
def subLatexDisplay : Nat → List Char → Nat → List (String × String) →
    List Char × Nat × List (String × String)
  | 0, cs, ctr, acc => (cs, ctr, acc)
  | _ + 1, [], ctr, acc => ([], ctr, acc)
  | fuel + 1, c :: rest, ctr, acc =>
    if c = '\\' ∧ rest.head? = some '[' then
      match splitAtSub ['\\', ']'] (rest.drop 1) with
      | some (body, rem) =>
        let ph := displayPlaceholder ctr
        let stored := "$$" ++ String.mk body ++ "$$"
        let r := subLatexDisplay fuel rem (ctr + 1) (acc ++ [(ph, stored)])
        (ph.data ++ r.1, r.2)
      | none =>
        let r := subLatexDisplay fuel rest ctr acc
        (c :: r.1, r.2)
    else
      let r := subLatexDisplay fuel rest ctr acc
      (c :: r.1, r.2)

/-- Lazy body of `(?<!\$)\$(?!\$)([^$\n]+?)\$(?!\$)`: at least one
character other than `$` and newline, closed by the first `$`; that `$`
must not be followed by another `$` (the body cannot extend past a `$`,
so a failed lookahead fails the whole match — no backtracking exists).
The `acc = []` case also realizes the opening `(?!\$)` lookahead. -/
def scanInlineBody : List Char → List Char → Option (List Char × List Char)
  | _, [] => none
  | acc, c :: rest =>
    if c = '$' then
      if acc = [] ∨ rest.head? = some '$' then none
      else some (acc.reverse, rest)
    else if c = '\n' then none
    else scanInlineBody (c :: acc) rest

/-- `re.sub(r'(?<!\$)\$(?!\$)([^$\n]+?)\$(?!\$)', replace_inline_math,
text)` (line 136).  `prev` is the original character before the current
position, for the negative lookbehind. -/
def subInlineMath : Nat → Option Char → List Char → Nat → List (String × String) →
    List Char × Nat × List (String × String)
  | 0, _, cs, ctr, acc => (cs, ctr, acc)
  | _ + 1, _, [], ctr, acc => ([], ctr, acc)
  | fuel + 1, prev, c :: rest, ctr, acc =>
    if c = '$' ∧ prev ≠ some '$' then
      match scanInlineBody [] rest with
      | some (body, rem) =>
        let ph := inlinePlaceholder ctr
        let matched := String.mk ('$' :: (body ++ ['$']))
        let r := subInlineMath fuel (some '$') rem (ctr + 1) (acc ++ [(ph, matched)])
        (ph.data ++ r.1, r.2)
      | none =>
        let r := subInlineMath fuel (some c) rest ctr acc
        (c :: r.1, r.2)
    else
      let r := subInlineMath fuel (some c) rest ctr acc
      (c :: r.1, r.2)

/-- Lazy body of `\\\(([^)]+?)\\\)`: at least one character other than
`)`, closed by the earliest `\)`. -/
def scanParenBody : List Char → List Char → Option (List Char × List Char)
  | _, [] => none
  | acc, c :: rest =>
    if acc ≠ [] ∧ c = '\\' ∧ rest.head? = some ')' then some (acc.reverse, rest.drop 1)
    else if c = ')' then none
    else scanParenBody (c :: acc) rest

/-- `re.sub(r'\\\(([^)]+?)\\\)', replace_latex_inline_math, text)`
(line 148): the body is stored wrapped in `$...$`. -/
def subLatexInline : Nat → List Char → Nat → List (String × String) →
    List Char × Nat × List (String × String)
  | 0, cs, ctr, acc => (cs, ctr, acc)
  | _ + 1, [], ctr, acc => ([], ctr, acc)
  | fuel + 1, c :: rest, ctr, acc =>
    if c = '\\' ∧ rest.head? = some '(' then
      match scanParenBody [] (rest.drop 1) with
      | some (body, rem) =>
        let ph := inlinePlaceholder ctr
        let stored := "$" ++ String.mk body ++ "$"
        let r := subLatexInline fuel rem (ctr + 1) (acc ++ [(ph, stored)])
        (ph.data ++ r.1, r.2)
      | none =>
        let r := subLatexInline fuel rest ctr acc
        (c :: r.1, r.2)
    else
      let r := subLatexInline fuel rest ctr acc
      (c :: r.1, r.2)

/-- `re.sub(r'^#{1,6}\s+', '', text, flags=re.MULTILINE)` (line 152).
`atStart` records whether the position is the start of the string or
right after a `\n` (where MULTILINE `^` matches).  A run of 1-6 `#`
followed by whitespace is deleted together with the whole greedy
whitespace run (which may span newlines); a run of 7+ `#` cannot match. -/
def subHeaders : Nat → Bool → List Char → List Char
  | 0, _, cs => cs
  | _ + 1, _, [] => []
  | fuel + 1, atStart, c :: rest =>
    let hashes := (c :: rest).takeWhile (· = '#')
    let afterH := (c :: rest).dropWhile (· = '#')
    if atStart ∧ 1 ≤ hashes.length ∧ hashes.length ≤ 6 ∧
        afterH.head?.elim false pyIsSpace then
      let ws := afterH.takeWhile pyIsSpace
      let rem := afterH.dropWhile pyIsSpace
      subHeaders fuel (ws.getLast? == some '\n') rem
    else c :: subHeaders fuel (c == '\n') rest

/-- `re.sub(r'\*\*([^*]+)\*\*', r'\1', text)` (line 154): the greedy body
is the maximal run of non-`*` characters after `**`; the match succeeds
exactly when that run is non-empty and followed by `**`. -/
def subBoldStar : Nat → List Char → List Char
  | 0, cs => cs
  | _ + 1, [] => []
  | fuel + 1, c :: rest =>
    if c = '*' ∧ rest.head? = some '*' then
      let body := (rest.drop 1).takeWhile (· ≠ '*')
      let after := (rest.drop 1).dropWhile (· ≠ '*')
      if body ≠ [] ∧ after.head? = some '*' ∧ (after.drop 1).head? = some '*' then
        body ++ subBoldStar fuel (after.drop 2)
      else c :: subBoldStar fuel rest
    else c :: subBoldStar fuel rest

/-- `re.sub(r'\*([^*]+)\*', r'\1', text)` (line 155). -/
def subItalicStar : Nat → List Char → List Char
  | 0, cs => cs
  | _ + 1, [] => []
  | fuel + 1, c :: rest =>
    if c = '*' then
      let body := rest.takeWhile (· ≠ '*')
      let after := rest.dropWhile (· ≠ '*')
      if body ≠ [] ∧ after.head? = some '*' then
        body ++ subItalicStar fuel (after.drop 1)
      else c :: subItalicStar fuel rest
    else c :: subItalicStar fuel rest

/-- `re.sub(r'__([^_]+)__', r'\1', text)` (line 156). -/
def subBoldUnderscore : Nat → List Char → List Char
  | 0, cs => cs
  | _ + 1, [] => []
  | fuel + 1, c :: rest =>
    if c = '_' ∧ rest.head? = some '_' then
      let body := (rest.drop 1).takeWhile (· ≠ '_')
      let after := (rest.drop 1).dropWhile (· ≠ '_')
      if body ≠ [] ∧ after.head? = some '_' ∧ (after.drop 1).head? = some '_' then
        body ++ subBoldUnderscore fuel (after.drop 2)
      else c :: subBoldUnderscore fuel rest
    else c :: subBoldUnderscore fuel rest

/-- Lazy body of `_([^_\n]+?)_(?!__)`: grow to the first `_`; that `_`
closes the match unless followed by `__` (the body cannot extend past a
`_`, so a failed lookahead fails the whole match). -/
def scanUnderscoreBody : List Char → List Char → Option (List Char × List Char)
  | _, [] => none
  | acc, c :: rest =>
    if c = '_' then
      if acc = [] ∨ (rest.head? = some '_' ∧ (rest.drop 1).head? = some '_') then none
      else some (acc.reverse, rest)
    else if c = '\n' then none
    else scanUnderscoreBody (c :: acc) rest

/-- The eight characters of the negative lookbehind `(?<!__LATEX_)`,
reversed (most recent character first). -/
def lookbehindLatex : List Char := ['_', 'X', 'E', 'T', 'A', 'L', '_', '_']

/-- `re.sub(r'(?<!__LATEX_)_([^_\n]+?)_(?!__)', r'\1', text)` (line 158).
`rprev` is the reversed list of original characters before the current
position, examined by the lookbehind.  Note the guard is ineffective on
the placeholders themselves: inside `__LATEX_INLINE_0__` no underscore is
preceded by the exact text `__LATEX_`, which is what lets this
substitution mangle the placeholders. -/
def subItalicUnderscore : Nat → List Char → List Char → List Char
  | 0, _, cs => cs
  | _ + 1, _, [] => []
  | fuel + 1, rprev, c :: rest =>
    if c = '_' ∧ ¬ lookbehindLatex.isPrefixOf rprev then
      match scanUnderscoreBody [] rest with
      | some (body, rem) =>
        body ++ subItalicUnderscore fuel ('_' :: (body.reverse ++ '_' :: rprev)) rem
      | none => c :: subItalicUnderscore fuel (c :: rprev) rest
    else c :: subItalicUnderscore fuel (c :: rprev) rest

/-- `re.sub(r'^---+\s*$', '', text, flags=re.MULTILINE)` (line 160) and
its `===` twin (line 161), parameterized by the rule character.  At a
line start, a run of 3+ rule characters followed by the greedy whitespace
run matches when that run reaches the end of the string (the whole run is
deleted), or contains a `\n` (backtracking settles `$` just before the
last `\n` of the run; the match ends there). -/
def subHRule (rule : Char) : Nat → Bool → List Char → List Char
  | 0, _, cs => cs
  | _ + 1, _, [] => []
  | fuel + 1, atStart, c :: rest =>
    let run := (c :: rest).takeWhile (· = rule)
    let afterRun := (c :: rest).dropWhile (· = rule)
    let ws := afterRun.takeWhile pyIsSpace
    let rem := afterRun.dropWhile pyIsSpace
    if atStart ∧ 3 ≤ run.length then
      if rem = [] then []
      else
        let tailNoNl := ws.reverse.takeWhile (· ≠ '\n')
        if tailNoNl.length = ws.length then c :: subHRule rule fuel (c == '\n') rest
        else
          let k := ws.length - tailNoNl.length - 1
          subHRule rule fuel ((ws.take k).getLast? == some '\n') (ws.drop k ++ rem)
    else c :: subHRule rule fuel (c == '\n') rest

/-- The backquote character. -/
def backtick : Char := Char.ofNat 96

/-- Line 163 (DOTALL code-fence removal, pattern: three backquotes, a
non-newline info run, a `\n`, then the lazy body to the earliest closing
three backquotes; the body replaces the whole match). -/
def subCodeFence : Nat → List Char → List Char
  | 0, cs => cs
  | _ + 1, [] => []
  | fuel + 1, c :: rest =>
    if c = backtick ∧ rest.head? = some backtick ∧ (rest.drop 1).head? = some backtick then
      let afterInfo := (rest.drop 2).dropWhile (· ≠ '\n')
      if afterInfo.head? = some '\n' then
        match splitAtSub [backtick, backtick, backtick] (afterInfo.drop 1) with
        | some (body, rem) => body ++ subCodeFence fuel rem
        | none => c :: subCodeFence fuel rest
      else c :: subCodeFence fuel rest
    else c :: subCodeFence fuel rest

/-- Line 164 (inline-code removal: one backquote, a maximal non-backquote
body, one backquote; the body replaces the match). -/
def subInlineCode : Nat → List Char → List Char
  | 0, cs => cs
  | _ + 1, [] => []
  | fuel + 1, c :: rest =>
    if c = backtick then
      let body := rest.takeWhile (· ≠ backtick)
      let after := rest.dropWhile (· ≠ backtick)
      if body ≠ [] ∧ after.head? = some backtick then
        body ++ subInlineCode fuel (after.drop 1)
      else c :: subInlineCode fuel rest
    else c :: subInlineCode fuel rest

/-- `re.sub(r'\[([^\]]+)\]\([^\)]+\)', r'\1', text)` (line 166): link
syntax is replaced by the bracketed text. -/
def subLinks : Nat → List Char → List Char
  | 0, cs => cs
  | _ + 1, [] => []
  | fuel + 1, c :: rest =>
    if c = '[' then
      let lab := rest.takeWhile (· ≠ ']')
      let afterLab := rest.dropWhile (· ≠ ']')
      let url := (afterLab.drop 2).takeWhile (· ≠ ')')
      let afterUrl := (afterLab.drop 2).dropWhile (· ≠ ')')
      if lab ≠ [] ∧ afterLab.head? = some ']' ∧ (afterLab.drop 1).head? = some '(' ∧
          url ≠ [] ∧ afterUrl.head? = some ')' then
        lab ++ subLinks fuel (afterUrl.drop 1)
      else c :: subLinks fuel rest
    else c :: subLinks fuel rest

/-- `re.sub(r'\n{3,}', '\n\n', text)` (line 168): collapse runs of three
or more newlines to exactly two. -/
def subCollapseNewlines : Nat → List Char → List Char
  | 0, cs => cs
  | _ + 1, [] => []
  | fuel + 1, c :: rest =>
    if c = '\n' then
      let run := (c :: rest).takeWhile (· = '\n')
      let rem := (c :: rest).dropWhile (· = '\n')
      if 3 ≤ run.length then '\n' :: '\n' :: subCollapseNewlines fuel rem
      else run ++ subCollapseNewlines fuel rem
    else c :: subCollapseNewlines fuel rest

/-- Python `text.split('\n')` (keeps empty pieces; `""` gives `[""]`). -/
def splitOnNewline : List Char → List (List Char)
  | [] => [[]]
  | c :: rest =>
    match splitOnNewline rest with
    | p :: ps => if c = '\n' then [] :: p :: ps else (c :: p) :: ps
    | [] => [[c]]

/-- Lines 170-171: strip every line and re-join with `\n`. -/
def stripLines (cs : List Char) : List Char :=
  List.intercalate ['\n'] ((splitOnNewline cs).map pyStripList)

/-- Python `str.replace` on lists: replace every leftmost,
non-overlapping occurrence of `old` by `new` (`old` is a non-empty
placeholder at every call site). -/
def pyReplaceList : Nat → List Char → List Char → List Char → List Char
  | 0, _, _, cs => cs
  | _ + 1, _, _, [] => []
  | fuel + 1, old, new, c :: rest =>
    if old.isPrefixOf (c :: rest) then
      new ++ pyReplaceList fuel old new ((c :: rest).drop old.length)
    else c :: pyReplaceList fuel old new rest

/-- `strip_markdown` (lines 82-177): extract math spans to placeholders
(display `$$`, then `\[..\]`, then inline `$`, then `\(..\)`), apply the
markdown-stripping substitutions, strip each line, restore the
placeholders in insertion order, and strip the result. -/
def strip_markdown (text : String) : String :=
  let s0 := text.data
  let r1 := subDisplayMath (s0.length + 1) s0 0 []
  let r2 := subLatexDisplay (r1.1.length + 1) r1.1 r1.2.1 r1.2.2
  let r3 := subInlineMath (r2.1.length + 1) none r2.1 r2.2.1 r2.2.2
  let r4 := subLatexInline (r3.1.length + 1) r3.1 r3.2.1 r3.2.2
  let s5 := subHeaders (r4.1.length + 1) true r4.1
  let s6 := subBoldStar (s5.length + 1) s5
  let s7 := subItalicStar (s6.length + 1) s6
  let s8 := subBoldUnderscore (s7.length + 1) s7
  let s9 := subItalicUnderscore (s8.length + 1) [] s8
  let s10 := subHRule '-' (s9.length + 1) true s9
  let s11 := subHRule '=' (s10.length + 1) true s10
  let s12 := subCodeFence (s11.length + 1) s11
  let s13 := subInlineCode (s12.length + 1) s12
  let s14 := subLinks (s13.length + 1) s13
  let s15 := subCollapseNewlines (s14.length + 1) s14
  let s16 := stripLines s15
  let restored := r4.2.2.foldl
    (fun t kv => pyReplaceList (t.length + 1) kv.1.data kv.2.data t) s16
  String.mk (pyStripList restored)

/-! ## Batch planner and executor (lines 375-593) -/

/-- The opaque Translation Engine collaborator (tokenizer + `generate` +
`batch_decode`).  `batchTranslate batch maxLength` models lines 455-484
(tokenize the batch, generate, decode), returning `none` when any of
those raise; appends into `batch_translations` start only after
`batch_decode` returns, so an exception leaves no partial output.
`retryTranslate sentence maxLength` models the single-sentence retry
(lines 505-518), whose decode returns a (possibly empty) list of
strings. -/
structure Engine where
  batchTranslate : List String → Nat → Option (List String)
  retryTranslate : String → Nat → Option (List String)

/-- `max(len(text) for text in batch)` (line 443); `0` for an empty batch
(Python would raise there; every call site passes a non-empty batch). -/
def maxBatchLength (batch : List String) : Nat :=
  (batch.map String.length).foldl max 0

/-- Lines 444-452: estimate tokens as length divided by 4 and pick the
decode tier (the batch path of `process_batch`). -/
def adaptiveMaxLength (maxBatchLen : Nat) : Nat :=
  let estimated_tokens := maxBatchLen / 4
  if estimated_tokens < 50 then 256
  else if estimated_tokens < 200 then 512
  else 1024

/-- Lines 501-502: the same tier computation in the single-sentence retry
path of `process_batch`. -/
def adaptiveMaxLengthRetry (sentenceLen : Nat) : Nat :=
  let estimated_tokens := sentenceLen / 4
  if estimated_tokens < 50 then 256 else if estimated_tokens < 200 then 512 else 1024

/-- Lines 663-665: the same tier computation in the streaming batch
path of `translate_stream`. -/
def adaptiveMaxLengthStream (maxBatchLen : Nat) : Nat :=
  let estimated_tokens := maxBatchLen / 4
  if estimated_tokens < 50 then 256 else if estimated_tokens < 200 then 512 else 1024

/-- Lines 722-723: the same tier computation in the streaming retry
path of `translate_stream`. -/
def adaptiveMaxLengthStreamRetry (sentenceLen : Nat) : Nat :=
  let estimated_tokens := sentenceLen / 4
  if estimated_tokens < 50 then 256 else if estimated_tokens < 200 then 512 else 1024

/-- `process_batch` (lines 437-527).  Batch path: each decoded translation
is stripped and kept when non-empty, otherwise the unit's original text is
substituted (lines 487-493; the decoded list is aligned 1:1 with the batch
by the engine contract, hence the `zip`).  On a batch exception, every
sentence is retried individually (lines 495-525): a non-empty decode list
contributes its stripped head — even when that is whitespace-only, line
520 — and an empty list or a retry exception contributes the original
sentence.  Returns `(batch_idx, translations)` (line 527). -/
def process_batch (eng : Engine) (batch : List String) (batch_idx : Nat) :
    Nat × List String :=
  let batch_translations :=
    match eng.batchTranslate batch (adaptiveMaxLength (maxBatchLength batch)) with
    | some translations =>
      (translations.zip batch).map
        (fun p => if pyStrip p.1 ≠ "" then pyStrip p.1 else p.2)
    | none =>
      batch.map (fun sentence =>
        match eng.retryTranslate sentence (adaptiveMaxLengthRetry sentence.length) with
        | some (t :: _) => pyStrip t
        | some [] => sentence
        | none => sentence)
  (batch_idx, batch_translations)

/-- Batch-size selection of `translate` (lines 389-397): a caller-supplied
size is used unchanged; otherwise CPU uses `min(10, max(6, cpu_count //
2))` and GPU (CUDA or MPS) uses 12. -/
def batchSizeTranslate (requested : Option Nat) (device : String) (cpu_count : Nat) : Nat :=
  match requested with
  | some b => b
  | none => if device = "cpu" then min 10 (max 6 (cpu_count / 2)) else 12

/-- Batch-size selection of `translate_stream` (lines 610-616), textually
the same computation. -/
def batchSizeStream (requested : Option Nat) (device : String) (cpu_count : Nat) : Nat :=
  match requested with
  | some b => b
  | none => if device = "cpu" then min 10 (max 6 (cpu_count / 2)) else 12

/-- `(len(units) + batch_size - 1) // batch_size` (line 433). -/
def totalBatches (n batch_size : Nat) : Nat := (n + batch_size - 1) / batch_size

/-- The batch start offsets `range(0, n, batch_size)` (for a positive
step, these are the multiples of `batch_size` below `n`). -/
def batchStarts (n batch_size : Nat) : List Nat :=
  (List.range (totalBatches n batch_size)).map (· * batch_size)

/-- The slice `units[i : i + batch_size]`. -/
def sliceUnits (units : List String) (i batch_size : Nat) : List String :=
  (units.drop i).take batch_size

/-- The sequential execution path of `translate` (lines 576-585): process
the batches in index order and concatenate their translations (the batch
at start offset `i` is batch number `i // batch_size`). -/
def seqTranslated (eng : Engine) (units : List String) (batch_size : Nat) : List String :=
  ((batchStarts units.length batch_size).map
    (fun i => (process_batch eng (sliceUnits units i batch_size) (i / batch_size)).2)).flatten

/-- The collection loop of the concurrent path (lines 547-568), fed the
batch numbers in completion order.  Each completed future yields
`(idx, translations)`; the slot `batch_results[idx]` is written only when
`idx` is in bounds (lines 551-553).  In this pure model `process_batch`
is total, so the retrieval of a result never raises. -/
def fillSlots (eng : Engine) (units : List String) (batch_size : Nat) :
    List Nat → List (Option (List String)) → List (Option (List String))
  | [], slots => slots
  | bn :: order, slots =>
    let res := process_batch eng (sliceUnits units (bn * batch_size) batch_size) bn
    let slots' := if res.1 < slots.length then slots.set res.1 (some res.2) else slots
    fillSlots eng units batch_size order slots'

/-- The body of the combination loop (lines 571-573): `if batch_result:
translated_sentences.extend(batch_result)` — a slot that is `None` (or
holds an empty list) is skipped. -/
def combineStep (acc : List String) (s : Option (List String)) : List String :=
  match s with
  | some ts => if ts ≠ [] then acc ++ ts else acc
  | none => acc

/-- Lines 570-573: combine the slot array in index order. -/
def combineSlots (slots : List (Option (List String))) : List String :=
  slots.foldl combineStep []

/-- The concurrent execution path of `translate` (lines 530-573):
pre-size the slot array to the batch count, fill slots as workers
complete (in `completionOrder`), and combine in index order. -/
def concTranslated (eng : Engine) (units : List String) (batch_size : Nat)
    (completionOrder : List Nat) : List String :=
  combineSlots (fillSlots eng units batch_size completionOrder
    (List.replicate (totalBatches units.length batch_size) none))

/-! ## Request orchestration (aggregate mode, lines 375-593) -/

/-- The aggregate response: `{"success": true, "translated": ...}` or
`{"success": false, "error": ...}`. -/
inductive TransResult where
  | success (translated : String)
  | failure (error : String)
deriving DecidableEq

/-- The final aggregate assembly (lines 587-593): fail with
`"All translation sentences failed"` exactly when the combined list is
empty, otherwise join with single spaces. -/
def mkAggResult (translated_sentences : List String) : TransResult :=
  if translated_sentences = [] then .failure "All translation sentences failed"
  else .success (String.intercalate " " translated_sentences)

/-- Lines 399-412 up to the filter: normalize, segment, then strip each
unit and keep the non-empty ones (`[u.strip() for u in units if
u.strip()]`). -/
def filteredUnits (text : String) : List String :=
  (split_into_units (strip_markdown text)).filterMap
    (fun u => if pyStrip u ≠ "" then some (pyStrip u) else none)

/-- `translate` (lines 375-593).  `completionOrder` is the order in which
the concurrent workers complete (scheduler nondeterminism); it is
consulted only on the parallel path (`device == "cpu"`, more than one
batch, and at least 4 CPUs, line 434). -/
def translate (eng : Engine) (device : String) (cpu_count : Nat)
    (text : String) (requested : Option Nat) (completionOrder : List Nat) :
    TransResult :=
  let batch_size := batchSizeTranslate requested device cpu_count
  let clean_text := strip_markdown text
  let units0 := split_into_units clean_text
  if units0 = [] then .failure "No sentences found in input text"
  else
    let units := units0.filterMap
      (fun u => if pyStrip u ≠ "" then some (pyStrip u) else none)
    if units = [] then .failure "No valid sentences found in input text"
    else
      let total_batches := totalBatches units.length batch_size
      let use_parallel := device = "cpu" ∧ total_batches > 1 ∧ cpu_count ≥ 4
      let translated_sentences :=
        if use_parallel then concTranslated eng units batch_size completionOrder
        else seqTranslated eng units batch_size
      mkAggResult translated_sentences

/-! ## Streaming mode (`translate_stream`, lines 596-787) -/

/-- One line of the streaming protocol. -/
inductive StreamEvent where
  | chunk (index total : Nat) (translated : String)
  | complete (total : Nat) (translated : String)
  | error (message : String)
deriving DecidableEq

/-- `(i, x)` pairs of `enumerate(l)`. -/
def pyEnum {α : Type} (l : List α) : List (Nat × α) :=
  (List.range l.length).zip l

/-- One streaming batch (lines 658-757): the chunk `(index, translated)`
pairs emitted for the batch starting at unit offset `start`.  Success
path: each decoded translation is stripped, with the original unit
substituted for empty/whitespace-only output (line 698).  On a batch
exception every sentence retries individually; a non-empty decode list
contributes its stripped head and an empty list or a second exception
contributes the original (lines 718-741).  Chunk `index` is the global
unit offset (`batch_idx + i`, lines 697/719). -/
def streamBatchPairs (eng : Engine) (batch : List String) (start : Nat) :
    List (Nat × String) :=
  match eng.batchTranslate batch (adaptiveMaxLengthStream (maxBatchLength batch)) with
  | some translations =>
    (pyEnum (translations.zip batch)).map
      (fun p => (start + p.1, if pyStrip p.2.1 ≠ "" then pyStrip p.2.1 else p.2.2))
  | none =>
    (pyEnum batch).map (fun p =>
      (start + p.1,
        match eng.retryTranslate p.2 (adaptiveMaxLengthStreamRetry p.2.length) with
        | some (t :: _) => pyStrip t
        | some [] => p.2
        | none => p.2))

/-- `translate_stream` (lines 596-787) as the list of emitted events:
an error event when no units survive the filter (lines 624-636);
otherwise one chunk event per unit, batch by batch in index order (the
streaming path never uses the worker pool), followed by a single
completion event carrying the space-joined combination — or an error
event if no translations accumulated (lines 759-787). -/
def translate_stream (eng : Engine) (device : String) (cpu_count : Nat)
    (text : String) (requested : Option Nat) : List StreamEvent :=
  let batch_size := batchSizeStream requested device cpu_count
  let units := filteredUnits text
  if units = [] then [.error "No sentences found in input text"]
  else
    let total := units.length
    let pairs := ((batchStarts units.length batch_size).map
      (fun s => streamBatchPairs eng (sliceUnits units s batch_size) s)).flatten
    let translated_sentences := pairs.map Prod.snd
    let chunkEvents := pairs.map (fun p => StreamEvent.chunk p.1 total p.2)
    if translated_sentences = [] then
      chunkEvents ++ [.error "All translation sentences failed"]
    else
      chunkEvents ++ [.complete total (String.intercalate " " translated_sentences)]

/-! ## Exceptional collection (lines 547-568) and auxiliary definitions -/

/-- The collection loop of the concurrent path when exceptions occur:
`failed` holds the batch numbers for which `future.result()` raised
(line 550) and the inline fallback reprocessing (lines 560-568) raised as
well — such a batch's slot is never written and stays `None`. -/
def fillSlotsWithFailures (eng : Engine) (units : List String) (batch_size : Nat)
    (failed : List Nat) :
    List Nat → List (Option (List String)) → List (Option (List String))
  | [], slots => slots
  | bn :: order, slots =>
    if bn ∈ failed then fillSlotsWithFailures eng units batch_size failed order slots
    else
      let res := process_batch eng (sliceUnits units (bn * batch_size) batch_size) bn
      let slots' := if res.1 < slots.length then slots.set res.1 (some res.2) else slots
      fillSlotsWithFailures eng units batch_size failed order slots'

/-- Does `pat` occur as a contiguous substring of the second list? -/
def containsSub (pat : List Char) : List Char → Bool
  | [] => pat.isPrefixOf ([] : List Char)
  | c :: rest => pat.isPrefixOf (c :: rest) || containsSub pat rest

/-- Is the event a completion event? -/
def isCompleteEvent : StreamEvent → Bool
  | .complete _ _ => true
  | _ => false

/-- An engine whose decode returns each input unchanged (a stand-in
successful engine for concrete runs). -/
def engEcho : Engine := ⟨fun b _ => some b, fun s _ => some [s]⟩

/-- An engine that raises on every batch and every retry. -/
def engFail : Engine := ⟨fun _ _ => none, fun _ _ => none⟩

/-- An engine whose batch decode yields a whitespace-only string for
every unit (so every unit takes the batch-path fallback). -/
def engAllWS : Engine := ⟨fun b _ => some (b.map (fun _ => " ")), fun _ _ => none⟩

/-- An engine that raises on the batch call and whose single-sentence
retry decodes to the whitespace-only list `[" "]`. -/
def engRetryWS : Engine := ⟨fun _ _ => none, fun _ _ => some [" "]⟩

/-! ## Helper lemmas: batch partition arithmetic -/

theorem process_batch_fst (eng : Engine) (batch : List String) (i : Nat) :
    (process_batch eng batch i).1 = i := rfl

theorem process_batch_length (eng : Engine) (batch : List String) (i : Nat)
    (halign : ∀ ts,
      eng.batchTranslate batch (adaptiveMaxLength (maxBatchLength batch)) = some ts →
      ts.length = batch.length) :
    (process_batch eng batch i).2.length = batch.length := by
  unfold process_batch
  cases h : eng.batchTranslate batch (adaptiveMaxLength (maxBatchLength batch)) with
  | none => simp
  | some ts => simp [List.length_zip, halign ts h]

theorem totalBatches_zero (bs : Nat) : totalBatches 0 bs = 0 := by
  cases bs with
  | zero => rfl
  | succ b =>
    show (0 + (b + 1) - 1) / (b + 1) = 0
    rw [Nat.zero_add, Nat.succ_sub_one]
    exact Nat.div_eq_of_lt (Nat.lt_succ_self b)

theorem totalBatches_pos_eq (bs n : Nat) (hbs : 0 < bs) (hn : 0 < n) :
    totalBatches n bs = (n - 1) / bs + 1 := by
  unfold totalBatches
  have h : n + bs - 1 = (n - 1) + 1 * bs := by omega
  rw [h, Nat.add_mul_div_right _ _ hbs]

theorem totalBatches_succ (bs n : Nat) (hbs : 0 < bs) (hn : 0 < n) :
    totalBatches n bs = totalBatches (n - bs) bs + 1 := by
  rcases Nat.lt_or_ge bs n with h | h
  · rw [totalBatches_pos_eq bs n hbs hn, totalBatches_pos_eq bs (n - bs) hbs (by omega)]
    have h2 : n - 1 = (n - bs - 1) + 1 * bs := by omega
    rw [h2, Nat.add_mul_div_right _ _ hbs]
  · have h0 : n - bs = 0 := by omega
    rw [h0, totalBatches_zero, totalBatches_pos_eq bs n hbs hn]
    have h3 : (n - 1) / bs = 0 := Nat.div_eq_of_lt (by omega)
    omega

theorem batchStarts_succ (bs n : Nat) (hbs : 0 < bs) (hn : 0 < n) :
    batchStarts n bs = 0 :: (batchStarts (n - bs) bs).map (· + bs) := by
  unfold batchStarts
  rw [totalBatches_succ bs n hbs hn, List.range_succ_eq_map]
  simp only [List.map_cons, List.map_map, Nat.zero_mul]
  refine congrArg _ (List.map_congr_left (fun j _ => ?_))
  simp [Function.comp, Nat.succ_mul]

/-- The contiguous slices at the batch start offsets partition the units. -/
theorem slices_flatten (bs : Nat) (hbs : 0 < bs) (units : List String) :
    ((batchStarts units.length bs).map (fun s => sliceUnits units s bs)).flatten = units := by
  suffices h : ∀ n units, List.length units = n →
      ((batchStarts (List.length units) bs).map (fun s => sliceUnits units s bs)).flatten
        = units from h units.length units rfl
  intro n
  induction n using Nat.strong_induction_on with
  | _ n ih =>
    intro units hlen
    cases units with
    | nil => simp [batchStarts, totalBatches_zero]
    | cons u us =>
      have hpos : 0 < (u :: us).length := by simp
      rw [batchStarts_succ bs _ hbs hpos]
      simp only [List.map_cons, List.map_map, List.flatten_cons]
      have hdrop : ((u :: us).drop bs).length = (u :: us).length - bs :=
        List.length_drop bs (u :: us)
      have hshift : ((batchStarts ((u :: us).length - bs) bs).map
          ((fun s => sliceUnits (u :: us) s bs) ∘ (· + bs))) =
          (batchStarts (((u :: us).drop bs).length) bs).map
            (fun s => sliceUnits ((u :: us).drop bs) s bs) := by
        rw [hdrop]
        refine List.map_congr_left (fun s _ => ?_)
        show sliceUnits (u :: us) (s + bs) bs = sliceUnits ((u :: us).drop bs) s bs
        unfold sliceUnits
        rw [List.drop_drop, Nat.add_comm bs s]
      rw [hshift, ih (((u :: us).drop bs).length) (by rw [hdrop]; omega)
        ((u :: us).drop bs) rfl]
      show sliceUnits (u :: us) 0 bs ++ (u :: us).drop bs = u :: us
      unfold sliceUnits
      rw [List.drop_zero, List.take_append_drop]

/-! ## Helper lemmas: slot-array assembly -/

theorem fillSlots_cons (eng : Engine) (units : List String) (bs bn : Nat)
    (order : List Nat) (slots : List (Option (List String))) :
    fillSlots eng units bs (bn :: order) slots =
      fillSlots eng units bs order
        (if bn < slots.length then
          slots.set bn (some (process_batch eng (sliceUnits units (bn * bs) bs) bn).2)
        else slots) := rfl

theorem fillSlots_getElem? (eng : Engine) (units : List String) (bs : Nat) :
    ∀ (order : List Nat) (slots : List (Option (List String))) (j : Nat),
      (fillSlots eng units bs order slots)[j]? =
        if j ∈ order ∧ j < slots.length then
          some (some (process_batch eng (sliceUnits units (j * bs) bs) j).2)
        else slots[j]? := by
  intro order
  induction order with
  | nil =>
    intro slots j
    show slots[j]? = _
    rw [if_neg (by simp)]
  | cons bn rest ih =>
    intro slots j
    rw [fillSlots_cons, ih]
    by_cases hbn : bn < slots.length
    · rw [if_pos hbn, List.length_set]
      by_cases hjr : j ∈ rest
      · by_cases hj : j < slots.length
        · rw [if_pos ⟨hjr, hj⟩, if_pos ⟨List.mem_cons_of_mem bn hjr, hj⟩]
        · rw [if_neg (fun hc => hj hc.2), if_neg (fun hc => hj hc.2), List.getElem?_set]
          by_cases hbj : bn = j
          · exact absurd (hbj ▸ hbn) hj
          · rw [if_neg hbj]
      · by_cases hbj : bn = j
        · subst hbj
          rw [if_neg (fun hc => hjr hc.1), if_pos ⟨List.mem_cons_self bn rest, hbn⟩,
            List.getElem?_set, if_pos rfl, if_pos hbn]
        · rw [if_neg (fun hc => hjr hc.1),
            if_neg (fun hc => (List.mem_cons.mp hc.1).elim (fun h => hbj h.symm) hjr),
            List.getElem?_set, if_neg hbj]
    · rw [if_neg hbn]
      by_cases hjr : j ∈ rest
      · by_cases hj : j < slots.length
        · rw [if_pos ⟨hjr, hj⟩, if_pos ⟨List.mem_cons_of_mem bn hjr, hj⟩]
        · rw [if_neg (fun hc => hj hc.2), if_neg (fun hc => hj hc.2)]
      · by_cases hbj : bn = j
        · subst hbj
          rw [if_neg (fun hc => hjr hc.1), if_neg (fun hc => hbn hc.2)]
        · rw [if_neg (fun hc => hjr hc.1),
            if_neg (fun hc => (List.mem_cons.mp hc.1).elim (fun h => hbj h.symm) hjr)]

theorem fillSlots_of_perm (eng : Engine) (units : List String) (bs : Nat)
    (order : List Nat) (n : Nat) (hperm : order.Perm (List.range n)) :
    fillSlots eng units bs order (List.replicate n none) =
      (List.range n).map
        (fun i => some (process_batch eng (sliceUnits units (i * bs) bs) i).2) := by
  apply List.ext_getElem?
  intro j
  rw [fillSlots_getElem?]
  by_cases hj : j < n
  · rw [if_pos ⟨by rw [hperm.mem_iff, List.mem_range]; exact hj, by simpa using hj⟩,
      List.getElem?_map, List.getElem?_range hj]
    rfl
  · rw [if_neg (fun hc => hj (by simpa using hc.2)),
      List.getElem?_replicate, if_neg hj,
      List.getElem?_eq_none (by simpa using Nat.le_of_not_lt hj)]

theorem combineStep_eq (acc : List String) (s : Option (List String)) :
    combineStep acc s = acc ++ combineStep [] s := by
  rcases s with _ | ts
  · simp [combineStep]
  · by_cases h : ts = [] <;> simp [combineStep, h]

theorem combineSlots_foldl (l : List (Option (List String))) :
    ∀ acc : List String, l.foldl combineStep acc = acc ++ combineSlots l := by
  induction l with
  | nil => intro acc; simp [combineSlots]
  | cons s rest ih =>
    intro acc
    have hcons : combineSlots (s :: rest) = combineStep [] s ++ combineSlots rest := by
      unfold combineSlots
      rw [List.foldl_cons, ih]
      rfl
    rw [List.foldl_cons, ih, combineStep_eq, hcons, List.append_assoc]

theorem combineSlots_cons (s : Option (List String)) (rest : List (Option (List String))) :
    combineSlots (s :: rest) = combineStep [] s ++ combineSlots rest := by
  unfold combineSlots
  rw [List.foldl_cons, combineSlots_foldl]
  rfl

theorem combineSlots_map_some (f : Nat → List String) (l : List Nat) :
    combineSlots (l.map (fun i => some (f i))) = (l.map f).flatten := by
  induction l with
  | nil => rfl
  | cons i rest ih =>
    rw [List.map_cons, combineSlots_cons, ih, List.map_cons, List.flatten_cons]
    by_cases h : f i = [] <;> simp [combineStep, h]

/-- The concurrent slot-array path computes exactly the sequential result,
for every completion order that delivers each batch once. -/
theorem conc_eq_seq (eng : Engine) (units : List String) (bs : Nat)
    (order : List Nat) (hbs : 0 < bs)
    (hperm : order.Perm (List.range (totalBatches units.length bs))) :
    concTranslated eng units bs order = seqTranslated eng units bs := by
  unfold concTranslated seqTranslated
  rw [fillSlots_of_perm eng units bs order _ hperm, combineSlots_map_some]
  unfold batchStarts
  rw [List.map_map]
  refine congrArg _ (List.map_congr_left (fun i _ => ?_))
  show (process_batch eng (sliceUnits units (i * bs) bs) i).2 =
    (process_batch eng (sliceUnits units (i * bs) bs) (i * bs / bs)).2
  rw [Nat.mul_div_cancel i hbs]

/-! ## Helper lemmas: cardinality and streaming order -/

theorem seqTranslated_length (eng : Engine) (units : List String) (bs : Nat)
    (hbs : 0 < bs)
    (halign : ∀ b n ts, eng.batchTranslate b n = some ts → ts.length = b.length) :
    (seqTranslated eng units bs).length = units.length := by
  unfold seqTranslated
  rw [List.length_flatten]
  have h1 : ((batchStarts units.length bs).map
      (fun i => (process_batch eng (sliceUnits units i bs) (i / bs)).2)).map List.length =
      ((batchStarts units.length bs).map (fun s => sliceUnits units s bs)).map List.length := by
    simp only [List.map_map]
    refine List.map_congr_left (fun s _ => ?_)
    exact process_batch_length eng _ _ (fun ts h => halign _ _ ts h)
  rw [h1, ← List.length_flatten, slices_flatten bs hbs units]

theorem pyEnum_map_fst {γ : Type} (X : List γ) :
    (pyEnum X).map Prod.fst = List.range X.length :=
  List.map_fst_zip _ _ (by rw [List.length_range])

theorem pyEnum_length {γ : Type} (X : List γ) : (pyEnum X).length = X.length := by
  unfold pyEnum
  rw [List.length_zip, List.length_range]
  exact Nat.min_self _

theorem streamBatchPairs_fst (eng : Engine) (batch : List String) (start : Nat)
    (halign : ∀ b n ts, eng.batchTranslate b n = some ts → ts.length = b.length) :
    (streamBatchPairs eng batch start).map Prod.fst =
      (List.range batch.length).map (start + ·) := by
  unfold streamBatchPairs
  cases h : eng.batchTranslate batch (adaptiveMaxLengthStream (maxBatchLength batch)) with
  | some ts =>
    have hz : (ts.zip batch).length = batch.length := by
      rw [List.length_zip, halign _ _ ts h]
      exact Nat.min_self _
    rw [List.map_map, ← hz, ← pyEnum_map_fst (ts.zip batch), List.map_map]
    rfl
  | none =>
    rw [List.map_map, ← pyEnum_map_fst batch, List.map_map]
    rfl

theorem stream_pairs_fst (eng : Engine) (bs : Nat) (hbs : 0 < bs)
    (halign : ∀ b n ts, eng.batchTranslate b n = some ts → ts.length = b.length) :
    ∀ (units : List String) (off : Nat),
      ((((batchStarts units.length bs).map
        (fun s => streamBatchPairs eng (sliceUnits units s bs) (s + off))).flatten).map
          Prod.fst)
        = (List.range units.length).map (· + off) := by
  suffices h : ∀ (n : Nat) (units : List String) (off : Nat), units.length = n →
      ((((batchStarts units.length bs).map
        (fun s => streamBatchPairs eng (sliceUnits units s bs) (s + off))).flatten).map
          Prod.fst)
        = (List.range units.length).map (· + off) from
    fun units off => h units.length units off rfl
  intro n
  induction n using Nat.strong_induction_on with
  | _ n ih =>
    intro units off hlen
    cases units with
    | nil => simp [batchStarts, totalBatches_zero]
    | cons u us =>
      have hpos : 0 < (u :: us).length := by simp
      rw [batchStarts_succ bs _ hbs hpos]
      simp only [List.map_cons, List.map_map, List.flatten_cons, Nat.zero_add,
        List.map_append]
      have hdrop : ((u :: us).drop bs).length = (u :: us).length - bs :=
        List.length_drop bs (u :: us)
      have hshift : ((batchStarts ((u :: us).length - bs) bs).map
          ((fun s => streamBatchPairs eng (sliceUnits (u :: us) s bs) (s + off)) ∘
            (· + bs))) =
          (batchStarts (((u :: us).drop bs).length) bs).map
            (fun s => streamBatchPairs eng (sliceUnits ((u :: us).drop bs) s bs)
              (s + (bs + off))) := by
        rw [hdrop]
        refine List.map_congr_left (fun s _ => ?_)
        show streamBatchPairs eng (sliceUnits (u :: us) (s + bs) bs) ((s + bs) + off) = _
        have hs : sliceUnits (u :: us) (s + bs) bs = sliceUnits ((u :: us).drop bs) s bs := by
          unfold sliceUnits
          rw [List.drop_drop, Nat.add_comm bs s]
        rw [hs, Nat.add_assoc]
      rw [hshift, ih (((u :: us).drop bs).length) (by rw [hdrop]; omega)
        ((u :: us).drop bs) (bs + off) rfl,
        streamBatchPairs_fst eng _ _ halign]
      rw [hdrop]
      have htake : (sliceUnits (u :: us) 0 bs).length = min bs (u :: us).length := by
        unfold sliceUnits
        rw [List.drop_zero, List.length_take]
      rw [htake]
      rcases Nat.lt_or_ge bs (u :: us).length with hlt | hle
      · have h1 : min bs (u :: us).length = bs := Nat.min_eq_left (Nat.le_of_lt hlt)
        rw [h1]
        have h2 : List.range (u :: us).length =
            List.range bs ++ (List.range ((u :: us).length - bs)).map (bs + ·) := by
          rw [← List.range_add]
          congr 1
          omega
        rw [h2, List.map_append, List.map_map]
        congr 1
        · exact List.map_congr_left (fun i _ => by omega)
        · refine List.map_congr_left (fun i _ => ?_)
          show i + (bs + off) = (bs + i) + off
          omega
      · have h1 : min bs (u :: us).length = (u :: us).length := Nat.min_eq_right hle
        have h2 : (u :: us).length - bs = 0 := by omega
        rw [h1, h2]
        simp only [List.range_zero, List.map_nil, List.append_nil]
        exact List.map_congr_left (fun i _ => by omega)

theorem zip_fst_snd {α β : Type} : ∀ l : List (α × β),
    (l.map Prod.fst).zip (l.map Prod.snd) = l := by
  intro l
  induction l with
  | nil => rfl
  | cons p rest ih => simp [ih]

/-! ## Helper lemmas: stripping -/

theorem pyStripList_subset (cs : List Char) : ∀ c ∈ pyStripList cs, c ∈ cs := by
  intro c hc
  unfold pyStripList at hc
  rw [List.mem_reverse] at hc
  have h1 : c ∈ (cs.dropWhile pyIsSpace).reverse := (List.dropWhile_sublist _).mem hc
  rw [List.mem_reverse] at h1
  exact (List.dropWhile_sublist _).mem h1

theorem pyStripList_has_nonspace (cs : List Char) (h : pyStripList cs ≠ []) :
    ∃ c ∈ pyStripList cs, pyIsSpace c = false := by
  have hbne : (cs.dropWhile pyIsSpace).reverse.dropWhile pyIsSpace ≠ [] := by
    intro hc
    refine h ?_
    unfold pyStripList
    rw [hc]
    rfl
  refine ⟨((cs.dropWhile pyIsSpace).reverse.dropWhile pyIsSpace).head hbne, ?_, ?_⟩
  · unfold pyStripList
    rw [List.mem_reverse]
    exact List.head_mem hbne
  · exact List.head_dropWhile_not pyIsSpace _ hbne

/-! ## Helper lemmas: executor paths -/

theorem zip_getElem? {α β : Type} : ∀ (l₁ : List α) (l₂ : List β) (i : Nat),
    (l₁.zip l₂)[i]? =
      Option.bind l₁[i]? (fun a => (l₂[i]?).map (fun b => (a, b))) := by
  intro l₁
  induction l₁ with
  | nil => intro l₂ i; simp
  | cons a l ih =>
    intro l₂ i
    cases l₂ with
    | nil => simp
    | cons b l₂ =>
      cases i with
      | zero => simp
      | succ i => simpa using ih l₂ i

theorem process_batch_batch_path (eng : Engine) (batch : List String)
    (batch_idx : Nat) (ts : List String)
    (h : eng.batchTranslate batch (adaptiveMaxLength (maxBatchLength batch)) = some ts) :
    (process_batch eng batch batch_idx).2 =
      (ts.zip batch).map (fun p => if pyStrip p.1 ≠ "" then pyStrip p.1 else p.2) := by
  simp only [process_batch]
  rw [h]

theorem process_batch_retry_path (eng : Engine) (batch : List String) (batch_idx : Nat)
    (h : eng.batchTranslate batch (adaptiveMaxLength (maxBatchLength batch)) = none) :
    (process_batch eng batch batch_idx).2 =
      batch.map (fun sentence =>
        match eng.retryTranslate sentence (adaptiveMaxLengthRetry sentence.length) with
        | some (t :: _) => pyStrip t
        | some [] => sentence
        | none => sentence) := by
  simp only [process_batch]
  rw [h]

theorem engEcho_align : ∀ (b : List String) (n : Nat) (ts : List String),
    engEcho.batchTranslate b n = some ts → ts.length = b.length := by
  intro b n ts h
  simp only [engEcho] at h
  cases h
  rfl

theorem foldl_max_init_le : ∀ (l : List Nat) (i : Nat), i ≤ l.foldl max i := by
  intro l
  induction l with
  | nil => intro i; exact Nat.le_refl i
  | cons a l ih =>
    intro i
    exact Nat.le_trans (Nat.le_max_left i a) (ih (max i a))

theorem foldl_max_le_of_mem : ∀ (l : List Nat) (i a : Nat), a ∈ l → a ≤ l.foldl max i := by
  intro l
  induction l with
  | nil => intro i a ha; cases ha
  | cons b l ih =>
    intro i a ha
    rcases List.mem_cons.mp ha with h | h
    · subst h
      exact Nat.le_trans (Nat.le_max_right i a) (foldl_max_init_le l (max i a))
    · exact ih (max i b) a h

theorem foldl_max_mem : ∀ (l : List Nat) (i : Nat), l.foldl max i = i ∨ l.foldl max i ∈ l := by
  intro l
  induction l with
  | nil => intro i; exact Or.inl rfl
  | cons a l ih =>
    intro i
    rcases ih (max i a) with h | h
    · rcases max_choice i a with hm | hm
      · exact Or.inl (by rw [List.foldl_cons, h, hm])
      · exact Or.inr (by rw [List.foldl_cons, h, hm]; exact List.mem_cons_self a l)
    · exact Or.inr (List.mem_cons_of_mem a h)

/-! ## Claim theorems -/

/-- C1: math preservation FAILS on the code.  For the input
`"This is $x^2+1$ math."` the inline span `$x^2+1$` is extracted to the
placeholder `__LATEX_INLINE_0__`, but the markdown-stripping
italic-underscore substitution (line 158) rewrites that placeholder to
`_LATEXINLINE0_` — its negative lookbehind `(?<!__LATEX_)` never guards
any underscore of the placeholder — so the restoration loop (lines
174-175) finds nothing to replace and the math span is lost: the
normalized output does not contain the substring `$x^2+1$`. -/
theorem C1_math_preservation_fails :
    strip_markdown "This is $x^2+1$ math." = "This is _LATEXINLINE0_ math." ∧
    containsSub ("$x^2+1$").data (strip_markdown "This is $x^2+1$ math.").data = false := by
  decide

/-- C2: idempotence FAILS on the code for an input containing a math
span.  The first application mangles the placeholder into
`_LATEXINLINE0_` (see C1); the second application's italic-underscore
substitution then strips the remaining underscores, so
`normalize (normalize x) ≠ normalize x`. -/
theorem C2_idempotence_fails :
    strip_markdown (strip_markdown "This is $x^2+1$ math.") ≠
      strip_markdown "This is $x^2+1$ math." := by
  decide

/-- C3 counterexample: the claim says a unit whose engine output is
empty/whitespace-only contributes its original untranslated text.  In
the single-unit retry path this is false: with the batch call raising
and the retry decoding to `[" "]`, the code appends
`translation[0].strip()` (line 520), i.e. the empty string, not the
original `"hello"`. -/
theorem C3_counterexample :
    (process_batch engRetryWS ["hello"] 0).2 = [""] ∧
    (process_batch engRetryWS ["hello"] 0).2 ≠ ["hello"] := by
  decide

/-- C3 (amended): `process_batch` returns exactly one translation per
unit of the batch (with an engine whose decode is aligned 1:1 with its
input) together with the given batch index, and the fallback facts that
actually hold: in the batch path a unit whose decoded translation strips
to empty receives its original text, and in the retry path a unit whose
retry raises or decodes to an empty list receives its original text (a
whitespace-only retry decode instead contributes the stripped empty
string, per the counterexample). -/
theorem C3_cardinality_fallback (eng : Engine) (batch : List String) (batch_idx : Nat)
    (halign : ∀ ts,
      eng.batchTranslate batch (adaptiveMaxLength (maxBatchLength batch)) = some ts →
      ts.length = batch.length) :
    (process_batch eng batch batch_idx).2.length = batch.length ∧
    (process_batch eng batch batch_idx).1 = batch_idx ∧
    (∀ ts, eng.batchTranslate batch (adaptiveMaxLength (maxBatchLength batch)) = some ts →
      ∀ i, i < batch.length →
        (process_batch eng batch batch_idx).2[i]? =
          some (if pyStrip (ts.getD i "") ≠ "" then pyStrip (ts.getD i "")
                else batch.getD i "")) ∧
    (eng.batchTranslate batch (adaptiveMaxLength (maxBatchLength batch)) = none →
      ∀ i, i < batch.length →
        (process_batch eng batch batch_idx).2[i]? =
          some (match eng.retryTranslate (batch.getD i "")
              (adaptiveMaxLengthRetry (batch.getD i "").length) with
            | some (t :: _) => pyStrip t
            | some [] => batch.getD i ""
            | none => batch.getD i "")) := by
  refine ⟨process_batch_length eng batch batch_idx halign, rfl, ?_, ?_⟩
  · intro ts h i hi
    have hts : i < ts.length := by rw [halign ts h]; exact hi
    rw [process_batch_batch_path eng batch batch_idx ts h, List.getElem?_map, zip_getElem?,
      List.getElem?_eq_getElem hts, List.getElem?_eq_getElem hi,
      List.getD_eq_getElem ts "" hts, List.getD_eq_getElem batch "" hi]
    rfl
  · intro h i hi
    rw [process_batch_retry_path eng batch batch_idx h, List.getElem?_map,
      List.getElem?_eq_getElem hi, List.getD_eq_getElem batch "" hi]
    rfl

/-- C3 witness: the amended cardinality statement at a concrete batch. -/
theorem C3_cardinality_fallback_witness :
    (process_batch engEcho ["one", "two"] 0).2.length = (["one", "two"] : List String).length :=
  (C3_cardinality_fallback engEcho ["one", "two"] 0
    (fun ts h => engEcho_align ["one", "two"] _ ts h)).1

/-- C4: ordering invariance under concurrency.  For every completion
order of the workers that delivers each batch number exactly once, the
slot-array assembly of the concurrent path produces exactly the
sequential result: worker completion order never changes the output. -/
theorem C4_order_invariance (eng : Engine) (units : List String) (batch_size : Nat)
    (completionOrder : List Nat) (hbs : 0 < batch_size)
    (hperm : completionOrder.Perm (List.range (totalBatches units.length batch_size))) :
    concTranslated eng units batch_size completionOrder =
      seqTranslated eng units batch_size :=
  conc_eq_seq eng units batch_size completionOrder hbs hperm

/-- C4 witness: a three-unit run with two batches completing out of
order. -/
theorem C4_order_invariance_witness :
    concTranslated engEcho ["a", "b", "c"] 2 [1, 0] =
      seqTranslated engEcho ["a", "b", "c"] 2 :=
  C4_order_invariance engEcho ["a", "b", "c"] 2 [1, 0] (by decide) (by decide)

/-- C5 counterexample: the claim's "if" direction is false — a run in
which EVERY unit falls back (the engine decodes each unit to the
whitespace-only `" "`, so each unit's original text is substituted)
still returns `success: true` with the originals joined, not the
`"All translation sentences failed"` failure the claim requires when
every unit fell back. -/
theorem C5_counterexample :
    translate engAllWS "cpu" 4 "hello world" none [] =
      .success "hello world" ∧
    engAllWS.batchTranslate ["hello world"]
      (adaptiveMaxLength (maxBatchLength ["hello world"])) = some [" "] ∧
    pyStrip " " = "" := by
  decide

/-- C5 (amended): `translate` reports the `"All translation sentences
failed"` failure exactly when the combined translations list is empty;
because a fallen-back unit contributes its original text, a request with
at least one surviving unit (and an aligned engine, under any worker
completion order) always returns success, with exactly one translation
per unit — partial or even total fallback is never surfaced as a
request-level failure.  Inputs with no surviving units fail with the
distinct messages `"No sentences found in input text"` /
`"No valid sentences found in input text"`. -/
theorem C5_request_failure (eng : Engine) (device : String) (cpu_count : Nat)
    (text : String) (requested : Option Nat) (completionOrder : List Nat)
    (halign : ∀ b n ts, eng.batchTranslate b n = some ts → ts.length = b.length)
    (hbs : 0 < batchSizeTranslate requested device cpu_count)
    (hperm : completionOrder.Perm (List.range
      (totalBatches (filteredUnits text).length
        (batchSizeTranslate requested device cpu_count))))
    (hu : filteredUnits text ≠ []) :
    translate eng device cpu_count text requested completionOrder =
      .success (String.intercalate " "
        (seqTranslated eng (filteredUnits text)
          (batchSizeTranslate requested device cpu_count))) ∧
    (seqTranslated eng (filteredUnits text)
      (batchSizeTranslate requested device cpu_count)).length =
      (filteredUnits text).length := by
  have hlen : (seqTranslated eng (filteredUnits text)
      (batchSizeTranslate requested device cpu_count)).length =
      (filteredUnits text).length :=
    seqTranslated_length eng (filteredUnits text) _ hbs halign
  refine ⟨?_, hlen⟩
  have hu0 : ¬ split_into_units (strip_markdown text) = [] := by
    intro hc
    apply hu
    show (split_into_units (strip_markdown text)).filterMap _ = []
    rw [hc]
    rfl
  have hu' : ¬ (split_into_units (strip_markdown text)).filterMap
      (fun u => if pyStrip u ≠ "" then some (pyStrip u) else none) = [] := hu
  have hseqne : seqTranslated eng (filteredUnits text)
      (batchSizeTranslate requested device cpu_count) ≠ [] := by
    intro hc
    rw [hc] at hlen
    exact hu (List.length_eq_zero.mp hlen.symm)
  simp only [translate]
  rw [if_neg hu0, if_neg hu']
  show mkAggResult
    (if device = "cpu" ∧
        totalBatches (filteredUnits text).length
          (batchSizeTranslate requested device cpu_count) > 1 ∧
        cpu_count ≥ 4 then
      concTranslated eng (filteredUnits text)
        (batchSizeTranslate requested device cpu_count) completionOrder
    else
      seqTranslated eng (filteredUnits text)
        (batchSizeTranslate requested device cpu_count)) = _
  by_cases hpar : device = "cpu" ∧
      totalBatches (filteredUnits text).length
        (batchSizeTranslate requested device cpu_count) > 1 ∧
      cpu_count ≥ 4
  · rw [if_pos hpar, conc_eq_seq eng _ _ _ hbs hperm]
    unfold mkAggResult
    rw [if_neg hseqne]
  · rw [if_neg hpar]
    unfold mkAggResult
    rw [if_neg hseqne]

/-- C5 witness: the amended statement at a concrete single-unit run. -/
theorem C5_request_failure_witness :
    translate engEcho "cpu" 4 "hello world" none [0] =
      .success (String.intercalate " "
        (seqTranslated engEcho (filteredUnits "hello world")
          (batchSizeTranslate none "cpu" 4))) :=
  (C5_request_failure engEcho "cpu" 4 "hello world" none [0]
    engEcho_align (by decide) (by decide) (by decide)).1

/-- C6 counterexample: on the non-empty whitespace-only input `" "` both
splitting paths yield nothing and `split_into_units` returns the
*untrimmed* original as the single unit — a whitespace-only unit,
contrary to the claim (which also demands the trimmed original, here the
empty string, which would itself violate the claimed no-empty-unit
property). -/
theorem C6_counterexample :
    split_into_units " " = [" "] ∧ pyStrip " " = "" := by
  decide

/-- C6 (amended): `split_into_units` never returns an empty list; for
every input containing at least one non-whitespace character no returned
unit is empty or whitespace-only; line-based splitting takes strict
precedence, sentence splitting is used only when the line path yields
nothing, and when both paths yield nothing the single returned unit is
the entire original text unmodified (not trimmed — so for
whitespace-only inputs that unit is whitespace-only). -/
theorem C6_segmentation (s : String) :
    split_into_units s ≠ [] ∧
    ((∃ c ∈ s.data, pyIsSpace c = false) →
      ∀ u ∈ split_into_units s, u.data ≠ [] ∧ ∃ c ∈ u.data, pyIsSpace c = false) ∧
    (lineUnits s ≠ [] → split_into_units s = (lineUnits s).map String.mk) ∧
    (lineUnits s = [] → sentenceUnits s ≠ [] →
      split_into_units s = (sentenceUnits s).map String.mk) ∧
    (lineUnits s = [] → sentenceUnits s = [] → split_into_units s = [s]) := by
  have hline : ∀ lu ∈ lineUnits s, lu ≠ [] ∧ ∃ ln, lu = pyStripList ln := by
    intro lu hlu
    unfold lineUnits at hlu
    by_cases hnl : s.data.contains '\n'
    · rw [if_pos hnl] at hlu
      have h1 := List.mem_filter.mp hlu
      have h2 : lu ≠ [] := by simpa using h1.2
      rcases List.mem_map.mp h1.1 with ⟨ln, _, hln⟩
      exact ⟨h2, ln, hln.symm⟩
    · rw [if_neg hnl] at hlu
      cases hlu
  have hsent : ∀ lu ∈ sentenceUnits s, lu ≠ [] ∧ ∃ ln, lu = pyStripList ln := by
    intro lu hlu
    unfold sentenceUnits at hlu
    have h1 := List.mem_filter.mp hlu
    have h2 : lu ≠ [] := by simpa using h1.2
    rcases List.mem_map.mp h1.1 with ⟨ln, _, hln⟩
    exact ⟨h2, ln, hln.symm⟩
  have hgood : ∀ (lus : List (List Char)),
      (∀ lu ∈ lus, lu ≠ [] ∧ ∃ ln, lu = pyStripList ln) →
      ∀ u ∈ lus.map String.mk, u.data ≠ [] ∧ ∃ c ∈ u.data, pyIsSpace c = false := by
    intro lus hlus u hu
    rcases List.mem_map.mp hu with ⟨lu, hmem, hmk⟩
    rcases hlus lu hmem with ⟨hne, ln, hstrip⟩
    have hdata : u.data = lu := by rw [← hmk]
    refine ⟨by rw [hdata]; exact hne, ?_⟩
    rw [hdata, hstrip]
    exact pyStripList_has_nonspace ln (by rw [← hstrip]; exact hne)
  refine ⟨?_, ?_, ?_, ?_, ?_⟩
  · unfold split_into_units
    by_cases h1 : lineUnits s ≠ []
    · rw [if_pos h1]
      simpa using h1
    · rw [if_neg h1]
      by_cases h2 : sentenceUnits s ≠ []
      · rw [if_pos h2]
        simpa using h2
      · rw [if_neg h2]
        simp
  · intro hc u hu
    unfold split_into_units at hu
    by_cases h1 : lineUnits s ≠ []
    · rw [if_pos h1] at hu
      exact hgood (lineUnits s) hline u hu
    · rw [if_neg h1] at hu
      by_cases h2 : sentenceUnits s ≠ []
      · rw [if_pos h2] at hu
        exact hgood (sentenceUnits s) hsent u hu
      · rw [if_neg h2] at hu
        rcases List.mem_singleton.mp hu with rfl
        rcases hc with ⟨c, hcm, hcs⟩
        exact ⟨List.ne_nil_of_mem hcm, c, hcm, hcs⟩
  · intro h1
    unfold split_into_units
    rw [if_pos h1]
  · intro h1 h2
    unfold split_into_units
    rw [if_neg (by simpa using h1), if_pos h2]
  · intro h1 h2
    unfold split_into_units
    rw [if_neg (by simpa using h1), if_neg (by simpa using h2)]

/-- C6 witness: the amended statement at the concrete input `"a b"`. -/
theorem C6_segmentation_witness :
    ∀ u ∈ split_into_units "a b", u.data ≠ [] ∧ ∃ c ∈ u.data, pyIsSpace c = false :=
  (C6_segmentation "a b").2.1 (by decide)

/-- C7: in all three decode sites (aggregate batch path, streaming batch
path, and the single-sentence retry paths) the decode max length is the
same function of the longest unit: estimate tokens as character length
divided by 4; under 50 tokens gives 256, under 200 gives 512, otherwise
1024.  `maxBatchLength` is the length of the longest unit of the batch
(an upper bound, attained on non-empty batches), and `process_batch`
consults the engine only at these adaptive lengths. -/
theorem C7_decode_tier :
    (∀ n, adaptiveMaxLength n = adaptiveMaxLengthStream n ∧
      adaptiveMaxLength n = adaptiveMaxLengthRetry n ∧
      adaptiveMaxLength n = adaptiveMaxLengthStreamRetry n) ∧
    (∀ n, (n / 4 < 50 → adaptiveMaxLength n = 256) ∧
      (50 ≤ n / 4 → n / 4 < 200 → adaptiveMaxLength n = 512) ∧
      (200 ≤ n / 4 → adaptiveMaxLength n = 1024)) ∧
    (∀ (batch : List String) (u : String), u ∈ batch →
      u.length ≤ maxBatchLength batch) ∧
    (∀ batch : List String, batch ≠ [] →
      ∃ u ∈ batch, maxBatchLength batch = u.length) ∧
    (∀ (eng eng' : Engine) (batch : List String) (idx : Nat),
      eng.batchTranslate batch (adaptiveMaxLength (maxBatchLength batch)) =
        eng'.batchTranslate batch (adaptiveMaxLength (maxBatchLength batch)) →
      (∀ s : String, eng.retryTranslate s (adaptiveMaxLengthRetry s.length) =
        eng'.retryTranslate s (adaptiveMaxLengthRetry s.length)) →
      process_batch eng batch idx = process_batch eng' batch idx) := by
  refine ⟨fun n => ⟨rfl, rfl, rfl⟩, ?_, ?_, ?_, ?_⟩
  · intro n
    refine ⟨fun h => ?_, fun h1 h2 => ?_, fun h => ?_⟩
    · unfold adaptiveMaxLength
      rw [if_pos h]
    · unfold adaptiveMaxLength
      rw [if_neg (by omega), if_pos h2]
    · unfold adaptiveMaxLength
      rw [if_neg (by omega), if_neg (by omega)]
  · intro batch u hu
    exact foldl_max_le_of_mem _ 0 u.length (List.mem_map_of_mem String.length hu)
  · intro batch hbne
    rcases foldl_max_mem (batch.map String.length) 0 with h | h
    · cases batch with
      | nil => exact absurd rfl hbne
      | cons b bs =>
        refine ⟨b, List.mem_cons_self b bs, ?_⟩
        have hle : b.length ≤ maxBatchLength (b :: bs) :=
          foldl_max_le_of_mem _ 0 b.length
            (List.mem_map_of_mem String.length (List.mem_cons_self b bs))
        have h2 : maxBatchLength (b :: bs) = 0 := h
        omega
    · rcases List.mem_map.mp h with ⟨u, hum, hul⟩
      exact ⟨u, hum, hul.symm⟩
  · intro eng eng' batch idx hb hr
    unfold process_batch
    rw [hb]
    cases h : eng'.batchTranslate batch (adaptiveMaxLength (maxBatchLength batch)) with
    | some ts => rfl
    | none =>
      refine congrArg (Prod.mk idx) ?_
      exact List.map_congr_left (fun s _ => by rw [hr s])

/-- C7 witness: the tier thresholds at concrete lengths (100 chars → 25
tokens → 256; 800 chars → 200 tokens is not under 200 → wait, 800 / 4 =
200 → 1024; 400 chars → 100 tokens → 512). -/
theorem C7_decode_tier_witness :
    adaptiveMaxLength 100 = 256 ∧ adaptiveMaxLength 400 = 512 ∧
      adaptiveMaxLength 800 = 1024 :=
  ⟨(C7_decode_tier.2.1 100).1 (by decide),
   (C7_decode_tier.2.1 400).2.1 (by decide) (by decide),
   (C7_decode_tier.2.1 800).2.2 (by decide)⟩

/-- C8: `translate` and `translate_stream` select the batch size
identically: a caller-supplied size is used unchanged; otherwise the CPU
device class uses `min(10, max(6, cpu_count // 2))`, which lies between
6 and 10 inclusive for every cpu count, and any non-CPU (accelerated)
device class uses the fixed size 12. -/
theorem C8_batch_size :
    (∀ (requested : Option Nat) (device : String) (cpu_count : Nat),
      batchSizeTranslate requested device cpu_count =
        batchSizeStream requested device cpu_count) ∧
    (∀ (b : Nat) (device : String) (cpu_count : Nat),
      batchSizeTranslate (some b) device cpu_count = b) ∧
    (∀ cpu_count : Nat,
      batchSizeTranslate none "cpu" cpu_count = min 10 (max 6 (cpu_count / 2)) ∧
      6 ≤ batchSizeTranslate none "cpu" cpu_count ∧
      batchSizeTranslate none "cpu" cpu_count ≤ 10) ∧
    (∀ (device : String) (cpu_count : Nat), device ≠ "cpu" →
      batchSizeTranslate none device cpu_count = 12) := by
  refine ⟨fun r d c => rfl, fun b d c => rfl, fun c => ?_, fun d c hd => ?_⟩
  · have h : batchSizeTranslate none "cpu" c = min 10 (max 6 (c / 2)) := by
      show (if ("cpu" : String) = "cpu" then min 10 (max 6 (c / 2)) else 12) = _
      rw [if_pos rfl]
    refine ⟨h, ?_, ?_⟩ <;> rw [h] <;> omega
  · show (if d = "cpu" then min 10 (max 6 (c / 2)) else 12) = 12
    rw [if_neg hd]

/-- C8 witness: a non-CPU device gets the fixed batch size 12. -/
theorem C8_batch_size_witness : batchSizeTranslate none "cuda" 8 = 12 :=
  C8_batch_size.2.2.2 "cuda" 8 (by decide)

/-- C9: silent slot loss in the concurrent path.  When retrieving a
batch's future result raises and the inline fallback reprocessing raises
as well (here batch 0 of the two batches over three units), that batch's
slot stays `None`, the combination loop silently skips it, and the final
assembly still returns `success: true` while every unit of the lost
batch is absent — the output carries strictly fewer translations (one)
than input units (three). -/
theorem C9_silent_batch_loss :
    fillSlotsWithFailures engEcho ["a", "b", "c"] 2 [0] [0, 1]
      (List.replicate (totalBatches (["a", "b", "c"] : List String).length 2) none) =
      [none, some ["c"]] ∧
    combineSlots [none, some ["c"]] = ["c"] ∧
    mkAggResult (combineSlots (fillSlotsWithFailures engEcho ["a", "b", "c"] 2 [0] [0, 1]
      (List.replicate (totalBatches (["a", "b", "c"] : List String).length 2) none))) =
      .success "c" ∧
    (combineSlots (fillSlotsWithFailures engEcho ["a", "b", "c"] 2 [0] [0, 1]
      (List.replicate (totalBatches (["a", "b", "c"] : List String).length 2) none))).length <
      (["a", "b", "c"] : List String).length := by
  decide

/-- C10 counterexample: the claim quantifies over every input, but for
the input `"---"` (which normalizes to the empty string, so no units
survive) `translate_stream` emits a single error event: no chunk events
and, contrary to the claim, no completion event at all. -/
theorem C10_counterexample :
    translate_stream engEcho "cpu" 4 "---" none =
      [.error "No sentences found in input text"] ∧
    (translate_stream engEcho "cpu" 4 "---" none).all
      (fun e => ! isCompleteEvent e) = true := by
  decide

/-- C10 (amended): for every input with at least one surviving unit (and
an aligned engine, any device), `translate_stream` — which never uses
the worker pool; its batches run sequentially in index order — emits
exactly one chunk event per unit with strictly increasing indices `0,
1, ..., total-1` (the chunk list is the enumeration of the translated
list), followed by the single completion event as the last event.
Inputs with no surviving units instead emit one error event (see the
counterexample). -/
theorem C10_stream_order (eng : Engine) (device : String) (cpu_count : Nat)
    (text : String) (requested : Option Nat)
    (halign : ∀ b n ts, eng.batchTranslate b n = some ts → ts.length = b.length)
    (hbs : 0 < batchSizeStream requested device cpu_count)
    (hu : filteredUnits text ≠ []) :
    ∃ ts : List String,
      ts.length = (filteredUnits text).length ∧
      translate_stream eng device cpu_count text requested =
        (pyEnum ts).map
          (fun p => StreamEvent.chunk p.1 (filteredUnits text).length p.2) ++
        [StreamEvent.complete (filteredUnits text).length
          (String.intercalate " " ts)] := by
  have hfst : ((((batchStarts (filteredUnits text).length
      (batchSizeStream requested device cpu_count)).map
        (fun s => streamBatchPairs eng
          (sliceUnits (filteredUnits text) s (batchSizeStream requested device cpu_count))
          s)).flatten).map Prod.fst) = List.range (filteredUnits text).length := by
    have h0 := stream_pairs_fst eng (batchSizeStream requested device cpu_count) hbs halign
      (filteredUnits text) 0
    have hcong : ((batchStarts (filteredUnits text).length
        (batchSizeStream requested device cpu_count)).map
          (fun s => streamBatchPairs eng
            (sliceUnits (filteredUnits text) s
              (batchSizeStream requested device cpu_count)) (s + 0))) =
        ((batchStarts (filteredUnits text).length
          (batchSizeStream requested device cpu_count)).map
            (fun s => streamBatchPairs eng
              (sliceUnits (filteredUnits text) s
                (batchSizeStream requested device cpu_count)) s)) :=
      List.map_congr_left (fun s _ => by rw [Nat.add_zero])
    rw [hcong] at h0
    rw [h0]
    have hid : ∀ m : Nat, (List.range m).map (· + 0) = List.range m := by
      intro m
      simp
    exact hid _
  set pairs := (((batchStarts (filteredUnits text).length
    (batchSizeStream requested device cpu_count)).map
      (fun s => streamBatchPairs eng
        (sliceUnits (filteredUnits text) s (batchSizeStream requested device cpu_count))
        s)).flatten) with hpairs
  have hlenp : pairs.length = (filteredUnits text).length := by
    rw [← List.length_map pairs Prod.fst, hfst, List.length_range]
  have hpe : pyEnum (pairs.map Prod.snd) = pairs := by
    unfold pyEnum
    rw [List.length_map, hlenp, ← hfst, zip_fst_snd]
  have hne : pairs.map Prod.snd ≠ [] := by
    intro hc
    have h1 : pairs.length = 0 := by
      rw [← List.length_map pairs Prod.snd, hc]
      rfl
    rw [hlenp] at h1
    exact hu (List.length_eq_zero.mp h1)
  refine ⟨pairs.map Prod.snd, by rw [List.length_map, hlenp], ?_⟩
  simp only [translate_stream]
  rw [if_neg hu, if_neg hne, hpe]

/-- C10 witness: the amended statement at a concrete two-unit input. -/
theorem C10_stream_order_witness :
    ∃ ts : List String,
      ts.length = (filteredUnits "x\ny").length ∧
      translate_stream engEcho "cpu" 4 "x\ny" none =
        (pyEnum ts).map
          (fun p => StreamEvent.chunk p.1 (filteredUnits "x\ny").length p.2) ++
        [StreamEvent.complete (filteredUnits "x\ny").length
          (String.intercalate " " ts)] :=
  C10_stream_order engEcho "cpu" 4 "x\ny" none engEcho_align (by decide) (by decide)

end NllbServer
